import Mathlib

/-!
Shallow embedding of the `rgc` component-graph extraction and classification
engine (Go sources `src/rgc.go`, `src/main.go`, and the gin HTTP wrapper).

The repository contains two parallel implementations of the pipeline:
* `rgc.go` — the engine exposed through `ProcessRepository`, used by the HTTP
  wrapper; phase 1 is a sequential walk registering file-name-derived
  components for `.tsx`/`.jsx` files; phase 2 scans relative `import X from
  "./path"` statements; classification partitions the collected root nodes.
* `main.go` — the CLI variant; phase 1 walks concurrently, skips files over
  1,000,000 bytes and extracts names with export/function patterns; phase 2
  scans `<Identifier` tags.

Go maps are modelled as insertion-ordered association lists where an insert
with an existing key overwrites in place (Go map iteration order is
unspecified; the claims fix a traversal order, and the association-list order
plays that role).  Concurrent loops are modelled sequentially in traversal
order, which is the fixed tie-break order the claims refer to.
-/

set_option autoImplicit false

namespace Rgc

/-- `Component` mirrors the Go struct `Component { Name, Path string }`. -/
structure Component where
  name : String
  path : String
deriving DecidableEq, Repr

/-- The Go map `createdComponents map[string]Component`, as an
insertion-ordered association list. -/
abbrev Registry := List (String × Component)

/-- Go map assignment `m[k] = v`: overwrite in place if the key exists,
otherwise append at the end (insertion order). -/
def mapInsert (m : Registry) (k : String) (v : Component) : Registry :=
  match m with
  | [] => [(k, v)]
  | (k', v') :: rest =>
    if k' = k then (k, v) :: rest else (k', v') :: mapInsert rest k v

/-- Go map read `m[k]` combined with the `, ok` form: `some v` when present. -/
def mapFind (m : Registry) (k : String) : Option Component :=
  match m with
  | [] => none
  | (k', v') :: rest => if k' = k then some v' else mapFind rest k

/-- The keys of the registry, in insertion order. -/
def mapKeys (m : Registry) : List String := m.map Prod.fst

/-- `filepath.Ext`: scan backwards from the end of the path; stop at a path
separator; on the first dot return the suffix starting at that dot.  The
first argument is the reversed character list still to scan, the second the
characters already passed (in forward order). -/
def extFromRev : List Char → List Char → String
  | [], _ => ""
  | c :: rest, acc =>
    if c = '/' then ""
    else if c = '.' then String.mk (c :: acc)
    else extFromRev rest (c :: acc)

/-- `filepath.Ext(path)` on a Unix path. -/
def fileExt (path : String) : String :=
  extFromRev path.toList.reverse []

/-- Does the first character list start with the second one? -/
def listHasHead : List Char → List Char → Bool
  | _, [] => true
  | [], _ :: _ => false
  | c :: cs, p :: ps => c = p && listHasHead cs ps

/-- `strings.TrimSuffix(s, suffix)`: drop the suffix when present. -/
def trimSuffixStr (s suffix : String) : String :=
  if listHasHead s.toList.reverse suffix.toList.reverse then
    String.mk ((s.toList.reverse.drop suffix.toList.length).reverse)
  else s

/-- `strings.Split(path, "/")` at the character level. -/
def splitSlash : List Char → List (List Char)
  | [] => [[]]
  | c :: rest =>
    if c = '/' then [] :: splitSlash rest
    else
      match splitSlash rest with
      | [] => [[c]]
      | g :: gs => (c :: g) :: gs

/-- `rgc.go` `isComponent`: recognize only `.tsx` and `.jsx` extensions. -/
def isComponent (path : String) : Bool :=
  let ext := fileExt path
  ext = ".tsx" || ext = ".jsx"

/-- `rgc.go` `extractComponentName`: the final `/`-separated element of the
path with its `filepath.Ext` suffix removed. -/
def extractComponentName (path : String) : String :=
  let parts := splitSlash path.toList
  let fileName := String.mk (parts.getLastD [])
  trimSuffixStr fileName (fileExt fileName)

/-- Helper for `filepath.Base`: drop separators at the head of the reversed
character list. -/
def dropLeadSlashes : List Char → List Char
  | [] => []
  | c :: rest => if c = '/' then dropLeadSlashes rest else c :: rest

/-- Helper for `filepath.Base`: take characters of the reversed list up to the
next separator. -/
def takeToSlash : List Char → List Char
  | [] => []
  | c :: rest => if c = '/' then [] else c :: takeToSlash rest

/-- `filepath.Base(path)` on a Unix path: `"."` for the empty path, trailing
separators removed, then everything after the final separator, `"/"` if
nothing remains. -/
def baseName (path : String) : String :=
  if path = "" then "."
  else
    let rev := dropLeadSlashes path.toList.reverse
    if rev = [] then "/"
    else String.mk (takeToSlash rev).reverse

example : fileExt "a/b/Card.tsx" = ".tsx" := by decide
example : fileExt "a.b/c" = "" := by decide
example : fileExt ".tsx" = ".tsx" := by decide
example : extractComponentName "x/Card.tsx" = "Card" := by decide
example : extractComponentName "A.tsx" = "A" := by decide
example : baseName "./B" = "B" := by decide
example : baseName "./components/Card.tsx" = "Card.tsx" := by decide
example : baseName "" = "." := by decide
example : baseName "///" = "/" := by decide

/-!
Character-level matchers for the two Go regular expressions the claims cite.
Each regular expression here has the property that every repeated class
(`\s+`, `\w+`, `[^'"]+`) is followed by a character that the class cannot
match, so RE2's leftmost-first semantics coincide with maximal-munch
scanning; the matchers below implement that directly.  `FindAllStringSubmatch`
semantics: try each start position from the left, and after a match continue
scanning at the first character past the match (non-overlapping).
-/

/-- RE2 `\s` (Go `regexp`): tab, newline, form feed, carriage return, space. -/
def isSpaceChar (c : Char) : Bool :=
  c = ' ' || c = '\t' || c = '\n' || c = '\r' || c = Char.ofNat 12

/-- RE2 `\w`: ASCII letters, digits and underscore. -/
def isWordChar (c : Char) : Bool :=
  ('a' ≤ c && c ≤ 'z') || ('A' ≤ c && c ≤ 'Z') || ('0' ≤ c && c ≤ '9') || c = '_'

/-- Single quote and double quote, the two characters of the class `['"]`. -/
def isQuoteChar (c : Char) : Bool :=
  c = Char.ofNat 39 || c = Char.ofNat 34

/-- Consume an exact literal; `some rest` on success. -/
def eatLiteral : List Char → List Char → Option (List Char)
  | [], cs => some cs
  | _ :: _, [] => none
  | l :: ls, c :: cs => if c = l then eatLiteral ls cs else none

/-- Maximal run of characters satisfying `p` (the `*` form): run and rest. -/
def eatRun (p : Char → Bool) : List Char → List Char × List Char
  | [] => ([], [])
  | c :: cs =>
    if p c then
      let (r, rest) := eatRun p cs
      (c :: r, rest)
    else ([], c :: cs)

/-- The `+` form: like `eatRun` but fails on an empty run. -/
def eatSome (p : Char → Bool) (cs : List Char) : Option (List Char × List Char) :=
  match eatRun p cs with
  | ([], _) => none
  | (r, rest) => some (r, rest)

/-- Consume one character of the class `['"]`. -/
def eatQuote : List Char → Option (List Char)
  | [] => none
  | c :: cs => if isQuoteChar c then some cs else none

/-- One attempted match of `import\s+(\w+)\s+from\s+['"]([^'"]+)['"]` at the
head of the character list (`rgc.go` `findChildComponents`); on success,
returns the two capture groups and the characters after the match. -/
def matchImportAt (cs : List Char) : Option (String × String × List Char) :=
  match eatLiteral "import".toList cs with
  | none => none
  | some cs1 =>
    match eatSome isSpaceChar cs1 with
    | none => none
    | some (_, cs2) =>
      match eatSome isWordChar cs2 with
      | none => none
      | some (name, cs3) =>
        match eatSome isSpaceChar cs3 with
        | none => none
        | some (_, cs4) =>
          match eatLiteral "from".toList cs4 with
          | none => none
          | some cs5 =>
            match eatSome isSpaceChar cs5 with
            | none => none
            | some (_, cs6) =>
              match eatQuote cs6 with
              | none => none
              | some cs7 =>
                match eatSome (fun c => !isQuoteChar c) cs7 with
                | none => none
                | some (importPath, cs8) =>
                  match eatQuote cs8 with
                  | none => none
                  | some cs9 => some (String.mk name, String.mk importPath, cs9)

/-- `FindAllStringSubmatch` for the import pattern: scan every start position
from the left, emit matches, and continue after each match.  The fuel is the
length of the text; every step consumes at least one character, so fuel never
runs out when it starts at the length of the list. -/
def scanImportsFuel : Nat → List Char → List (String × String)
  | 0, _ => []
  | _ + 1, [] => []
  | fuel + 1, c :: rest =>
    match matchImportAt (c :: rest) with
    | some (name, importPath, after) => (name, importPath) :: scanImportsFuel fuel after
    | none => scanImportsFuel fuel rest

/-- All matches of the import pattern in the content, in order. -/
def scanImports (content : String) : List (String × String) :=
  scanImportsFuel content.toList.length content.toList

/-- `rgc.go` `findChildComponents`: for each import match, skip import paths
that do not start with a dot (non-relative imports), then take the base name
of the import path with its extension trimmed. -/
def findChildComponents (content : String) : List String :=
  (scanImports content).filterMap (fun m =>
    if listHasHead m.2.toList ['.'] then
      some (trimSuffixStr (baseName m.2) (fileExt (baseName m.2)))
    else none)

example :
    scanImports "import B from \"./B\"" = [("B", "./B")] := by decide
example :
    findChildComponents "import B from \"./B\"" = ["B"] := by decide
example :
    findChildComponents "import React from \"react\"\nimport Card from \"./components/Card.tsx\"" =
      ["Card"] := by decide
example : findChildComponents "const x = 1" = [] := by decide
example :
    findChildComponents "import A from \"./A\"\nimport A from \"./A\"" = ["A", "A"] := by decide

/-!
`main.go` `extractComponents` uses
`(?m)^export\s+(default\s+)?(function|class|const)\s+(\w+)|export\s+const\s+(\w+)\s*=\s*(\(|\w+\s*=>)`
followed by a second pass with `(?m)^function\s+(\w+)`.  The first
alternative is anchored at a line start (the `(?m)^` applies only to it);
the code takes capture group 3 and falls back to group 4.
-/

/-- `(function|class|const)\s+(\w+)`: the keyword alternatives are tried in
order, then mandatory whitespace and the captured identifier. -/
def matchKwName (cs : List Char) : Option (String × List Char) :=
  let kw :=
    match eatLiteral "function".toList cs with
    | some r => some r
    | none =>
      match eatLiteral "class".toList cs with
      | some r => some r
      | none => eatLiteral "const".toList cs
  match kw with
  | none => none
  | some cs1 =>
    match eatSome isSpaceChar cs1 with
    | none => none
    | some (_, cs2) =>
      match eatSome isWordChar cs2 with
      | none => none
      | some (name, cs3) => some (String.mk name, cs3)

/-- First alternative `export\s+(default\s+)?(function|class|const)\s+(\w+)`;
the caller checks the line-start anchor.  If `default` plus whitespace is
consumed but no keyword follows, the optional group backtracks to empty. -/
def matchExportB1 (cs : List Char) : Option (String × List Char) :=
  match eatLiteral "export".toList cs with
  | none => none
  | some cs1 =>
    match eatSome isSpaceChar cs1 with
    | none => none
    | some (_, cs2) =>
      let withDefault :=
        match eatLiteral "default".toList cs2 with
        | none => none
        | some csa =>
          match eatSome isSpaceChar csa with
          | none => none
          | some (_, csb) => matchKwName csb
      match withDefault with
      | some r => some r
      | none => matchKwName cs2

/-- Second alternative `export\s+const\s+(\w+)\s*=\s*(\(|\w+\s*=>)`, not
anchored; the open parenthesis is preferred over the arrow form. -/
def matchExportB2 (cs : List Char) : Option (String × List Char) :=
  match eatLiteral "export".toList cs with
  | none => none
  | some cs1 =>
    match eatSome isSpaceChar cs1 with
    | none => none
    | some (_, cs2) =>
      match eatLiteral "const".toList cs2 with
      | none => none
      | some cs3 =>
        match eatSome isSpaceChar cs3 with
        | none => none
        | some (_, cs4) =>
          match eatSome isWordChar cs4 with
          | none => none
          | some (name, cs5) =>
            let (_, cs6) := eatRun isSpaceChar cs5
            match cs6 with
            | '=' :: cs7 =>
              let (_, cs8) := eatRun isSpaceChar cs7
              match cs8 with
              | '(' :: cs9 => some (String.mk name, cs9)
              | _ =>
                match eatSome isWordChar cs8 with
                | none => none
                | some (_, cs9) =>
                  let (_, cs10) := eatRun isSpaceChar cs9
                  match eatLiteral "=>".toList cs10 with
                  | none => none
                  | some cs11 => some (String.mk name, cs11)
            | _ => none

/-- All names produced by the export pattern, in match order.  The Boolean
tracks whether the current position is at a line start (position zero or
just after a newline); after a match the previous character is never a
newline, so scanning resumes in mid-line state. -/
def scanExportsFuel : Nat → Bool → List Char → List String
  | 0, _, _ => []
  | _ + 1, _, [] => []
  | fuel + 1, atLineStart, c :: rest =>
    match (if atLineStart then matchExportB1 (c :: rest) else none) with
    | some (n, after) => n :: scanExportsFuel fuel false after
    | none =>
      match matchExportB2 (c :: rest) with
      | some (n, after) => n :: scanExportsFuel fuel false after
      | none => scanExportsFuel fuel (c = '\n') rest

/-- `function\s+(\w+)` at the head of the list; line anchor checked by the
caller. -/
def matchFunctionAt (cs : List Char) : Option (String × List Char) :=
  match eatLiteral "function".toList cs with
  | none => none
  | some cs1 =>
    match eatSome isSpaceChar cs1 with
    | none => none
    | some (_, cs2) =>
      match eatSome isWordChar cs2 with
      | none => none
      | some (name, cs3) => some (String.mk name, cs3)

/-- All names produced by the line-anchored `function` pattern. -/
def scanFunctionsFuel : Nat → Bool → List Char → List String
  | 0, _, _ => []
  | _ + 1, _, [] => []
  | fuel + 1, atLineStart, c :: rest =>
    match (if atLineStart then matchFunctionAt (c :: rest) else none) with
    | some (n, after) => n :: scanFunctionsFuel fuel false after
    | none => scanFunctionsFuel fuel (c = '\n') rest

/-- `main.go` `extractComponents`: register every export-pattern name (map
assignment, so a later file with the same name overwrites), then register
`function` declarations only when the name is not yet known (`.Name == ""`
is Go's zero-value test for a missing key). -/
def extractComponentsMain (content path : String) (reg : Registry) : Registry :=
  let exportNames := scanExportsFuel content.toList.length true content.toList
  let reg1 := exportNames.foldl
    (fun r n => if n = "" then r else mapInsert r n ⟨n, path⟩) reg
  let fnNames := scanFunctionsFuel content.toList.length true content.toList
  fnNames.foldl
    (fun r n =>
      if n = "" then r
      else
        match mapFind r n with
        | none => mapInsert r n ⟨n, path⟩
        | some v => if v.name = "" then mapInsert r n ⟨n, path⟩ else r)
    reg1

example :
    extractComponentsMain "export const Button = (" "Button.py" [] =
      [("Button", ⟨"Button", "Button.py"⟩)] := by decide
example :
    extractComponentsMain "export default function Card() \nfunction helper() " "c.tsx" [] =
      [("Card", ⟨"Card", "c.tsx"⟩), ("helper", ⟨"helper", "c.tsx"⟩)] := by decide
example :
    extractComponentsMain "  export const Inner = x => x" "i.tsx" [] =
      [("Inner", ⟨"Inner", "i.tsx"⟩)] := by decide
example : extractComponentsMain "export defaulter" "d.tsx" [] = [] := by decide

/-!
The project tree served by the Content Provider (the GitHub contents API).
A directory entry carries `some listing` when `GetContents` succeeds on it
and `none` when it fails; a file entry carries its reported size and
`some text` when its content can be fetched and decoded, `none` otherwise.
`FSListing` is a list type declared mutually with `FSEntry` so that all
recursion over trees is structural.
-/

mutual
inductive FSEntry where
  | file (path : String) (size : Nat) (content : Option String) : FSEntry
  | dir (path : String) (listing : Option FSListing) : FSEntry
inductive FSListing where
  | nil : FSListing
  | cons (e : FSEntry) (rest : FSListing) : FSListing
end

/-- `rgc.go` `processFile`: under the mutex, register the file-name-derived
component when the extension is recognized. -/
def rgcProcessFile (path : String) (reg : Registry) : Registry :=
  if isComponent path then
    mapInsert reg (extractComponentName path) ⟨extractComponentName path, path⟩
  else reg

mutual
/-- `rgc.go` walk, one entry: files are registered; a directory whose listing
fails makes `processDirectory` return an error, which the caller propagates
(so the whole phase aborts). -/
def rgcEntry : FSEntry → Registry → Except Unit Registry
  | .file p _ _, reg => .ok (rgcProcessFile p reg)
  | .dir _ none, _ => .error ()
  | .dir _ (some es), reg => rgcListing es reg

/-- `rgc.go` walk over a directory listing, sequentially, stopping at the
first error exactly as the `for` loop in `processRepoContents` and
`processDirectory` does. -/
def rgcListing : FSListing → Registry → Except Unit Registry
  | .nil, reg => .ok reg
  | .cons e rest, reg =>
    match rgcEntry e reg with
    | .error u => .error u
    | .ok reg2 => rgcListing rest reg2
end

/-- `rgc.go` `processRepoContents`: a failure of the root listing itself is
an error; otherwise walk the root listing.  The initial registry is the
current value of the package-level `createdComponents`. -/
def rgcWalk : Option FSListing → Registry → Except Unit Registry
  | none, _ => .error ()
  | some es, reg => rgcListing es reg

/-- `main.go` `processFile`: failures fetching or decoding the content only
warn and skip, files whose reported size exceeds 1,000,000 bytes are skipped
with a warning before extraction, and there is no extension filter. -/
def processFileMain (path : String) (size : Nat) (content : Option String)
    (reg : Registry) : Registry :=
  if size > 1000000 then reg
  else
    match content with
    | none => reg
    | some c => extractComponentsMain c path reg

mutual
/-- `main.go` walk, one entry: a directory whose listing fails is reported as
a warning and skipped; files never produce errors. -/
def mainEntry : FSEntry → Registry → Registry
  | .file p sz c, reg => processFileMain p sz c reg
  | .dir _ none, reg => reg
  | .dir _ (some es), reg => mainListing es reg

/-- `main.go` walk over a listing.  The Go code processes entries in
concurrently completing goroutines; registry writes are serialized by the
mutex, and this model fixes the traversal order as the application order. -/
def mainListing : FSListing → Registry → Registry
  | .nil, reg => reg
  | .cons e rest, reg => mainListing rest (mainEntry e reg)
end

/-- `main.go` `ProcessRepository` (phase 1): only a failure of the initial
root listing is fatal; any other failure leaves a warning and the walk
still completes with the registry built so far. -/
def mainWalk : Option FSListing → Except Unit Registry
  | none => .error ()
  | some es => .ok (mainListing es [])

example :
    rgcWalk (some (.cons (.file "A.tsx" 10 (some "")) (.cons (.file "B.tsx" 5 none) .nil))) [] =
      .ok [("A", ⟨"A", "A.tsx"⟩), ("B", ⟨"B", "B.tsx"⟩)] := rfl
example :
    rgcWalk (some (.cons (.dir "d" none) (.cons (.file "ok.tsx" 1 (some "")) .nil))) [] =
      .error () := rfl
example :
    mainWalk (some (.cons (.dir "d" none) (.cons (.file "ok.tsx" 1 (some "x")) .nil))) =
      .ok [] := rfl

/-!
Phase 2 and 3 of `rgc.go`: `buildComponentTree`, `isImportedByOthers` and the
classification loop of `ProcessRepository`.  `ComponentNode` mirrors the Go
struct (the `Parent` back-reference is not stored: `buildComponentTree` only
ever assigns it on the freshly created child nodes, and the only read,
`node.Parent == nil` on the registry-iterated node, is therefore always
true — see `rgcBuildNodes`).  `NodeSeq` is the child list, declared mutually
so recursion over nodes is structural.
-/

mutual
inductive ComponentNode where
  | mk (component : Component) (children : NodeSeq) : ComponentNode
inductive NodeSeq where
  | nil : NodeSeq
  | cons (n : ComponentNode) (rest : NodeSeq) : NodeSeq
end

def ComponentNode.component : ComponentNode → Component
  | .mk c _ => c

def ComponentNode.children : ComponentNode → NodeSeq
  | .mk _ cs => cs

def NodeSeq.toList : NodeSeq → List ComponentNode
  | .nil => []
  | .cons n rest => n :: rest.toList

def NodeSeq.ofList : List ComponentNode → NodeSeq
  | [] => .nil
  | n :: rest => .cons n (NodeSeq.ofList rest)

/-- Result of one `GetContents` call on a file during phase 2: decoded text,
a 404 response (skipped with `continue`), or any other failure (which
`buildComponentTree` turns into a fatal error). -/
inductive Fetch where
  | ok (content : String) : Fetch
  | notFound : Fetch
  | failed : Fetch

/-- The child nodes `buildComponentTree` appends for one definer: for every
name produced by `findChildComponents`, when the name is a registry key a
fresh node containing that component and no children of its own is created. -/
def childNodes (reg : Registry) (content : String) : List ComponentNode :=
  (findChildComponents content).filterMap (fun childName =>
    match mapFind reg childName with
    | some childComp => some (ComponentNode.mk childComp .nil)
    | none => none)

/-- `rgc.go` `buildComponentTree`: iterate the registry (first argument: the
full registry used for child lookups; third: the entries still to process in
iteration order; fourth: the accumulated `rootComponents`).  The node built
for each component never has its own `Parent` field assigned, so the
`node.Parent == nil` test always succeeds and every successfully fetched
component's node is appended to the root list. -/
def rgcBuildNodes (reg : Registry) (provider : String → Fetch) :
    List (String × Component) → List ComponentNode → Except Unit (List ComponentNode)
  | [], roots => .ok roots
  | (_, comp) :: rest, roots =>
    match provider comp.path with
    | .failed => .error ()
    | .notFound => rgcBuildNodes reg provider rest roots
    | .ok content =>
      let node := ComponentNode.mk comp (NodeSeq.ofList (childNodes reg content))
      rgcBuildNodes reg provider rest (roots ++ [node])

/-- `rgc.go` `isImportedByOthers`: some root component has a child whose
component name equals this node's component name. -/
def isImportedByOthers (roots : List ComponentNode) (node : ComponentNode) : Bool :=
  roots.any (fun comp =>
    comp.children.toList.any (fun child => child.component.name = node.component.name))

/-- The classification test in `ProcessRepository`:
`len(node.Children) > 0 || isImportedByOthers(node)`. -/
def usedPred (roots : List ComponentNode) (node : ComponentNode) : Bool :=
  decide (0 < node.children.toList.length) || isImportedByOthers roots node

/-- `ComponentsResult` with `used_count`, `unused_count`, `used`, `unused`. -/
structure ComponentsResult where
  usedCount : Nat
  unusedCount : Nat
  used : List ComponentNode
  unused : List ComponentNode

/-- The classification loop of `ProcessRepository`: append each root to
`used` or `unused`, then set the counts to the lengths. -/
def classifyRoots (roots : List ComponentNode) : ComponentsResult :=
  let pair := roots.foldl
    (fun (acc : List ComponentNode × List ComponentNode) node =>
      if usedPred roots node then (acc.1 ++ [node], acc.2) else (acc.1, acc.2 ++ [node]))
    ([], [])
  { usedCount := pair.1.length, unusedCount := pair.2.length,
    used := pair.1, unused := pair.2 }

/-- The package-level mutable state of `rgc.go`: `createdComponents` and
`rootComponents`.  It is initialized empty when the process starts and is
never reset between `ProcessRepository` calls. -/
structure RgcState where
  createdComponents : Registry
  rootComponents : List ComponentNode

/-- `rgc.go` `ProcessRepository` on the abstract Content Provider: phase 1
mutates `createdComponents`, phase 2 appends to `rootComponents`, phase 3
classifies the accumulated root list.  The resulting state is the new value
of the package-level variables. -/
def processRepositoryRgc (tree : Option FSListing) (provider : String → Fetch)
    (st : RgcState) : Except Unit (ComponentsResult × RgcState) :=
  match rgcWalk tree st.createdComponents with
  | .error u => .error u
  | .ok reg =>
    match rgcBuildNodes reg provider reg st.rootComponents with
    | .error u => .error u
    | .ok roots => .ok (classifyRoots roots, ⟨reg, roots⟩)

/-!
Serialization (`rgc.go` `MarshalJSON`).  The method marshals a wrapper struct
embedding an alias of the node (whose `Parent` carries `json:"-"` and is
dropped) plus an extra field tagged `children,omitempty`.  Go's
`encoding/json` keeps promoted fields whose JSON names differ from outer
ones, so the output has `Component`, the alias's untagged `Children` (a nil
slice marshals as `null`) and, when the child list is non-empty, the outer
`children`.  There is no visited set: child nodes are marshaled recursively
in full.
-/

inductive Json where
  | null : Json
  | str (s : String) : Json
  | num (n : Nat) : Json
  | arr (elems : List Json) : Json
  | obj (fields : List (String × Json)) : Json

mutual
/-- `MarshalJSON` of one node. -/
def serializeNode : ComponentNode → Json
  | .mk comp cs =>
    let kids := serializeSeq cs
    let compField :=
      ("Component", Json.obj [("Name", Json.str comp.name), ("Path", Json.str comp.path)])
    match kids with
    | [] => Json.obj [compField, ("Children", Json.null)]
    | _ => Json.obj [compField, ("Children", Json.arr kids), ("children", Json.arr kids)]

/-- Marshaling of a `[]*ComponentNode` slice: each element through its
`MarshalJSON`. -/
def serializeSeq : NodeSeq → List Json
  | .nil => []
  | .cons n rest => serializeNode n :: serializeSeq rest
end

/-- Marshaling of a node slice such as `rootComponents` or the `used` and
`unused` arrays. -/
def serializeForest (roots : List ComponentNode) : Json :=
  Json.arr (roots.map serializeNode)

/-- Marshaling of the `ComponentsResult` the HTTP wrapper returns. -/
def serializeResult (res : ComponentsResult) : Json :=
  Json.obj [("used_count", Json.num res.usedCount),
            ("unused_count", Json.num res.unusedCount),
            ("used", serializeForest res.used),
            ("unused", serializeForest res.unused)]

/-!
Concrete scenarios used by the claim theorems, and small observation
helpers on pipeline results.
-/

/-- The empty initial state of the package-level variables at process start. -/
def emptyState : RgcState := ⟨[], []⟩

/-- Names and child counts of the `used` sequence of a pipeline result. -/
def usedSummary (r : Except Unit (ComponentsResult × RgcState)) : List (String × Nat) :=
  match r with
  | .error _ => []
  | .ok (res, _) => res.used.map (fun n => (n.component.name, n.children.toList.length))

/-- Names and child counts of the `unused` sequence of a pipeline result. -/
def unusedSummary (r : Except Unit (ComponentsResult × RgcState)) : List (String × Nat) :=
  match r with
  | .error _ => []
  | .ok (res, _) => res.unused.map (fun n => (n.component.name, n.children.toList.length))

/-- Root component names of the resulting state, in collection order. -/
def rootNames (r : Except Unit (ComponentsResult × RgcState)) : List String :=
  match r with
  | .error _ => []
  | .ok (_, st) => st.rootComponents.map (fun n => n.component.name)

/-- Scenario of claims C1 and C2: a registry `{A, B}` where `a`'s file
references `B` and `b`'s file references nothing. -/
def treeAB : Option FSListing :=
  some (.cons (.file "A.tsx" 10 (some "")) (.cons (.file "B.tsx" 10 (some "")) .nil))

/-- Contents for the scenario: `A.tsx` imports `B` relatively, `B.tsx` is
empty. -/
def providerAB : String → Fetch := fun p =>
  if p = "A.tsx" then .ok "import B from \"./B\""
  else if p = "B.tsx" then .ok ""
  else .notFound

example :
    rgcWalk treeAB [] = .ok [("A", ⟨"A", "A.tsx"⟩), ("B", ⟨"B", "B.tsx"⟩)] := rfl
example :
    usedSummary (processRepositoryRgc treeAB providerAB emptyState) = [("A", 1), ("B", 0)] := rfl
example :
    unusedSummary (processRepositoryRgc treeAB providerAB emptyState) = [] := rfl
example :
    rootNames (processRepositoryRgc treeAB providerAB emptyState) = ["A", "B"] := rfl

/-- The registry phase 1 produces for the two-component scenario. -/
def regAB : Registry := [("A", ⟨"A", "A.tsx"⟩), ("B", ⟨"B", "B.tsx"⟩)]

/-- The root nodes phase 2 produces for the two-component scenario: `A` with
the leaf child `B`, and `B` with no children. -/
def rootsAB : List ComponentNode :=
  [ComponentNode.mk ⟨"A", "A.tsx"⟩ (.cons (.mk ⟨"B", "B.tsx"⟩ .nil) .nil),
   ComponentNode.mk ⟨"B", "B.tsx"⟩ .nil]

example : rgcBuildNodes regAB providerAB regAB [] = .ok rootsAB := rfl

/-!
General lemmas about the classification loop.
-/

@[simp] theorem component_mk (c : Component) (cs : NodeSeq) :
    (ComponentNode.mk c cs).component = c := rfl

@[simp] theorem children_mk (c : Component) (cs : NodeSeq) :
    (ComponentNode.mk c cs).children = cs := rfl

/-- The append-to-one-of-two-lists fold of the classification loop equals a
pair of filters. -/
theorem partitionFoldl (p : ComponentNode → Bool) (l : List ComponentNode) :
    ∀ acc : List ComponentNode × List ComponentNode,
      l.foldl
        (fun acc node => if p node then (acc.1 ++ [node], acc.2) else (acc.1, acc.2 ++ [node]))
        acc =
        (acc.1 ++ l.filter p, acc.2 ++ l.filter (fun n => !p n)) := by
  induction l with
  | nil => intro acc; simp
  | cons x xs ih =>
    intro acc
    by_cases hx : p x <;> simp [hx, List.filter_cons, ih]

theorem classifyRoots_used (roots : List ComponentNode) :
    (classifyRoots roots).used = roots.filter (usedPred roots) := by
  simp [classifyRoots, partitionFoldl]

theorem classifyRoots_unused (roots : List ComponentNode) :
    (classifyRoots roots).unused = roots.filter (fun n => !usedPred roots n) := by
  simp [classifyRoots, partitionFoldl]

/-- C1, counterexample.  The claim says a root is used iff it has at least
one outgoing child edge and that the referenced-by-another-component branch
never fires.  In the two-component scenario (`A.tsx` imports `B`, `B.tsx`
imports nothing) the engine classifies `B` as used although `B`'s node has
zero children: `isImportedByOthers` fires because every component's node is
a root and `A`'s node has a child named `B`. -/
theorem c1Cex :
    usedSummary (processRepositoryRgc treeAB providerAB emptyState) = [("A", 1), ("B", 0)] ∧
    unusedSummary (processRepositoryRgc treeAB providerAB emptyState) = [] :=
  ⟨rfl, rfl⟩

/-- C1 (amended): a root node is classified used iff it has at least one
child, or some root's child list contains a node with the same component
name (`isImportedByOthers`); the referenced branch is reachable and does
classify childless referenced roots as used. -/
theorem c1UsedIff (roots : List ComponentNode) (node : ComponentNode) :
    node ∈ (classifyRoots roots).used ↔
      node ∈ roots ∧
        (node.children.toList ≠ [] ∨
          ∃ p ∈ roots, ∃ c ∈ p.children.toList,
            c.component.name = node.component.name) := by
  rw [classifyRoots_used, List.mem_filter]
  simp [usedPred, isImportedByOthers, List.any_eq_true, List.length_pos]

/-- C2, counterexample.  The claim says a node is a forest root iff it has
zero incoming edges, and that in the scenario the roots are exactly `[A]`.
The engine never assigns the `Parent` field of the registry-iterated nodes,
so `B` is also collected as a root even though `A` references it. -/
theorem c2Cex :
    rootNames (processRepositoryRgc treeAB providerAB emptyState) = ["A", "B"] ∧
    rootNames (processRepositoryRgc treeAB providerAB emptyState) ≠ ["A"] :=
  ⟨rfl, by decide⟩

/-- Does a phase-2 fetch succeed? -/
def fetchOk (f : Fetch) : Bool :=
  match f with
  | .ok _ => true
  | _ => false

/-- C2 (amended): after phase 2, the collected roots are exactly the nodes of
the registry entries whose content fetch succeeded, in registry order,
regardless of incoming references — `buildComponentTree` appends every such
node because `node.Parent` is always nil on the nodes it iterates. -/
theorem c2RootsAll (reg : Registry) (provider : String → Fetch)
    (pending : List (String × Component)) (acc roots : List ComponentNode)
    (h : rgcBuildNodes reg provider pending acc = .ok roots) :
    roots.map (fun n => n.component) =
      acc.map (fun n => n.component) ++
        (pending.filter (fun kc => fetchOk (provider kc.2.path))).map Prod.snd := by
  induction pending generalizing acc with
  | nil =>
    simp only [rgcBuildNodes] at h
    cases h
    simp
  | cons kc rest ih =>
    simp only [rgcBuildNodes] at h
    cases hf : provider kc.2.path with
    | ok content =>
      rw [hf] at h
      have := ih _ h
      simp [this, List.filter_cons, fetchOk, hf]
    | notFound =>
      rw [hf] at h
      have := ih _ h
      simp [this, List.filter_cons, fetchOk, hf]
    | failed => rw [hf] at h; cases h

/-- Witness for the amended C2 at the two-component scenario. -/
theorem c2RootsAllWitness :
    rgcBuildNodes regAB providerAB regAB [] = .ok rootsAB ∧
    rootsAB.map (fun n => n.component) =
      ([] : List ComponentNode).map (fun n => n.component) ++
        (regAB.filter (fun kc => fetchOk (providerAB kc.2.path))).map Prod.snd :=
  ⟨rfl, c2RootsAll regAB providerAB regAB [] rootsAB rfl⟩

/-- C10: in every result of a successful `ProcessRepository` run, the counts
equal the lengths of the corresponding sequences, and every collected root
node lands in exactly one of the two sequences. -/
theorem c10Partition (tree : Option FSListing) (provider : String → Fetch)
    (st : RgcState) (res : ComponentsResult) (st' : RgcState)
    (h : processRepositoryRgc tree provider st = .ok (res, st')) :
    res.usedCount = res.used.length ∧ res.unusedCount = res.unused.length ∧
    ∀ node ∈ st'.rootComponents,
      (node ∈ res.used ∧ node ∉ res.unused) ∨
        (node ∈ res.unused ∧ node ∉ res.used) := by
  unfold processRepositoryRgc at h
  split at h
  · cases h
  · split at h
    · cases h
    · rename_i reg hw roots hb
      rw [Except.ok.injEq, Prod.mk.injEq] at h
      obtain ⟨hres, hst⟩ := h
      subst hres; subst hst
      refine ⟨rfl, rfl, ?_⟩
      intro node hn
      simp only [RgcState.rootComponents] at hn
      rw [classifyRoots_used, classifyRoots_unused]
      by_cases hp : usedPred roots node
      · exact Or.inl ⟨List.mem_filter.mpr ⟨hn, hp⟩,
          fun hmem => by simp [List.mem_filter, hp] at hmem⟩
      · exact Or.inr ⟨List.mem_filter.mpr ⟨hn, by simp [hp]⟩,
          fun hmem => (hp (List.mem_filter.mp hmem).2).elim⟩

/-- The classification result of the two-component scenario. -/
def resAB : ComponentsResult := ⟨2, 0, rootsAB, []⟩

/-- Witness for C10 at the two-component scenario. -/
theorem c10PartitionWitness :
    processRepositoryRgc treeAB providerAB emptyState = .ok (resAB, ⟨regAB, rootsAB⟩) ∧
    (resAB.usedCount = resAB.used.length ∧ resAB.unusedCount = resAB.unused.length ∧
      ∀ node ∈ rootsAB,
        (node ∈ resAB.used ∧ node ∉ resAB.unused) ∨
          (node ∈ resAB.unused ∧ node ∉ resAB.used)) :=
  ⟨rfl, c10Partition treeAB providerAB emptyState resAB ⟨regAB, rootsAB⟩ rfl⟩

/-!
Claim C3: persistence of the package-level state across operations.
-/

/-- A project tree containing the single component file `A.tsx`. -/
def treeA : Option FSListing := some (.cons (.file "A.tsx" 10 (some "")) .nil)

/-- A provider whose files are all empty. -/
def providerEmpty : String → Fetch := fun _ => .ok ""

/-- Two back-to-back `ProcessRepository` calls in the same process, as the
HTTP wrapper performs them for two successive requests: the second call
starts from the package-level state the first call left behind. -/
def runTwice (tree : Option FSListing) (provider : String → Fetch) :
    Except Unit (ComponentsResult × ComponentsResult) :=
  match processRepositoryRgc tree provider emptyState with
  | .error u => .error u
  | .ok (res1, st1) =>
    match processRepositoryRgc tree provider st1 with
    | .error u => .error u
    | .ok (res2, _) => .ok (res1, res2)

/-- The pair of `unused_count` values of two successive runs. -/
def unusedCountsOf : Except Unit (ComponentsResult × ComponentsResult) → Nat × Nat
  | .error _ => (0, 0)
  | .ok (r1, r2) => (r1.unusedCount, r2.unusedCount)

/-- C3: the engine is not idempotent across calls in one process.  On the
one-component tree the first call reports one unused root, but the second
call over identical file contents reports two, because `rootComponents` is
never reset and `buildComponentTree` appends a fresh node for `A` next to
the node the first call already collected. -/
theorem c3SecondRunDiffers :
    unusedCountsOf (runTwice treeA providerEmpty) = (1, 2) ∧
    unusedSummary (processRepositoryRgc treeA providerEmpty emptyState) = [("A", 0)] :=
  ⟨rfl, rfl⟩

/-!
Claim C4: name-collision resolution.
-/

/-- Two files that both yield the component name `Card`, in x-then-y
traversal order. -/
def cardTreeXY : Option FSListing :=
  some (.cons (.file "x/Card.tsx" 1 none) (.cons (.file "y/Card.tsx" 1 none) .nil))

/-- The same two files in the opposite traversal order. -/
def cardTreeYX : Option FSListing :=
  some (.cons (.file "y/Card.tsx" 1 none) (.cons (.file "x/Card.tsx" 1 none) .nil))

/-- C4, counterexample.  The claim says the first-discovered file wins the
name collision and that the surviving `ComponentDef` is independent of
processing order.  In fact map assignment overwrites: in x-then-y order the
survivor is `y/Card.tsx` (the last processed, not the first), and reversing
the processing order changes the surviving definition. -/
theorem c4Cex :
    rgcWalk cardTreeXY [] = .ok [("Card", ⟨"Card", "y/Card.tsx"⟩)] ∧
    rgcWalk cardTreeYX [] = .ok [("Card", ⟨"Card", "x/Card.tsx"⟩)] ∧
    ([("Card", (⟨"Card", "y/Card.tsx"⟩ : Component))] : Registry) ≠
      [("Card", ⟨"Card", "x/Card.tsx"⟩)] :=
  ⟨rfl, rfl, by decide⟩

/-!
Registry lemmas and a preservation principle for the `rgc.go` walk, used by
the amended C4 and C7.
-/

theorem mapFind_mapInsert (m : Registry) (k : String) (v : Component) :
    mapFind (mapInsert m k v) k = some v := by
  induction m with
  | nil => simp [mapInsert, mapFind]
  | cons kv rest ih =>
    obtain ⟨k', v'⟩ := kv
    by_cases hk : k' = k <;> simp [mapInsert, hk, mapFind, ih]

theorem mapKeys_mapInsert (m : Registry) (k : String) (v : Component) :
    mapKeys (mapInsert m k v) =
      if k ∈ mapKeys m then mapKeys m else mapKeys m ++ [k] := by
  induction m with
  | nil => simp [mapInsert, mapKeys]
  | cons kv rest ih =>
    obtain ⟨k', v'⟩ := kv
    by_cases hk : k' = k
    · simp [mapInsert, hk, mapKeys]
    · have hne : ¬(k = k') := fun hh => hk hh.symm
      simp only [mapInsert, if_neg hk, mapKeys, List.map_cons]
      rw [mapKeys] at ih
      rw [ih]
      by_cases hmem : k ∈ List.map Prod.fst rest <;>
        simp [hmem, hne, List.mem_cons, mapKeys]

theorem nodup_mapInsert (m : Registry) (k : String) (v : Component)
    (h : (mapKeys m).Nodup) : (mapKeys (mapInsert m k v)).Nodup := by
  rw [mapKeys_mapInsert]
  split
  · exact h
  · rename_i hk
    simp [List.nodup_append, h, hk]

theorem mem_mapInsert (m : Registry) (k : String) (v : Component)
    (kc : String × Component) (h : kc ∈ mapInsert m k v) : kc ∈ m ∨ kc = (k, v) := by
  induction m with
  | nil =>
    simp only [mapInsert, List.mem_singleton] at h
    exact Or.inr h
  | cons kv rest ih =>
    obtain ⟨k', v'⟩ := kv
    by_cases hk : k' = k
    · simp only [mapInsert, if_pos hk] at h
      rcases List.mem_cons.mp h with h | h
      · exact Or.inr h
      · exact Or.inl (List.mem_cons_of_mem _ h)
    · simp only [mapInsert, if_neg hk] at h
      rcases List.mem_cons.mp h with h | h
      · exact Or.inl (h ▸ List.mem_cons_self _ _)
      · rcases ih h with h | h
        · exact Or.inl (List.mem_cons_of_mem _ h)
        · exact Or.inr h

mutual
/-- Any registry property preserved by `rgcProcessFile` is preserved by the
walk of one entry. -/
theorem rgcEntryPreserves (P : Registry → Prop)
    (hstep : ∀ reg p, P reg → P (rgcProcessFile p reg)) :
    ∀ (e : FSEntry) (reg reg' : Registry), rgcEntry e reg = .ok reg' → P reg → P reg'
  | .file p sz c, reg, reg', h, hP => by
    simp only [rgcEntry, Except.ok.injEq] at h
    exact h ▸ hstep reg p hP
  | .dir q none, reg, reg', h, hP => by simp [rgcEntry] at h
  | .dir q (some es), reg, reg', h, hP =>
    rgcListingPreserves P hstep es reg reg' (by simpa [rgcEntry] using h) hP

/-- Any registry property preserved by `rgcProcessFile` is preserved by the
walk of a listing. -/
theorem rgcListingPreserves (P : Registry → Prop)
    (hstep : ∀ reg p, P reg → P (rgcProcessFile p reg)) :
    ∀ (es : FSListing) (reg reg' : Registry), rgcListing es reg = .ok reg' → P reg → P reg'
  | .nil, reg, reg', h, hP => by
    simp only [rgcListing, Except.ok.injEq] at h
    exact h ▸ hP
  | .cons e rest, reg, reg', h, hP => by
    simp only [rgcListing] at h
    split at h
    · cases h
    · rename_i reg2 he
      exact rgcListingPreserves P hstep rest reg2 reg' h
        (rgcEntryPreserves P hstep e reg reg2 he hP)
end

theorem rgcWalkPreserves (P : Registry → Prop)
    (hstep : ∀ reg p, P reg → P (rgcProcessFile p reg))
    (tree : Option FSListing) (reg reg' : Registry)
    (h : rgcWalk tree reg = .ok reg') (hP : P reg) : P reg' := by
  cases tree with
  | none => cases h
  | some es => exact rgcListingPreserves P hstep es reg reg' h hP

/-- C4 (amended): at most one `ComponentDef` per name survives in the
registry (the key list stays duplicate-free), but the resolution is map
overwrite — the last write for a key is the one `mapFind` returns — so with
a fixed traversal order the last-discovered file wins, and the survivor
depends on that order rather than on a first-wins rule. -/
theorem c4LastWins (tree : Option FSListing) (reg' : Registry)
    (h : rgcWalk tree [] = .ok reg') :
    (mapKeys reg').Nodup ∧
    ∀ (m : Registry) (k : String) (v : Component), mapFind (mapInsert m k v) k = some v := by
  refine ⟨?_, fun m k v => mapFind_mapInsert m k v⟩
  refine rgcWalkPreserves (fun r => (mapKeys r).Nodup) ?_ tree [] reg' h (by simp [mapKeys])
  intro reg p hP
  unfold rgcProcessFile
  split
  · exact nodup_mapInsert _ _ _ hP
  · exact hP

/-- Witness for the amended C4 at the colliding-names tree. -/
theorem c4LastWinsWitness :
    rgcWalk cardTreeXY [] = .ok [("Card", ⟨"Card", "y/Card.tsx"⟩)] ∧
    ((mapKeys [("Card", (⟨"Card", "y/Card.tsx"⟩ : Component))]).Nodup ∧
      ∀ (m : Registry) (k : String) (v : Component),
        mapFind (mapInsert m k v) k = some v) :=
  ⟨rfl, c4LastWins cardTreeXY [("Card", ⟨"Card", "y/Card.tsx"⟩)] rfl⟩

/-!
Claim C7: the extension filter of the phase-1 walk.
-/

/-- C7, counterexample.  The claim says a file contributes to the Registry
iff its extension is one of `.js`, `.jsx`, `.ts`, `.tsx`.  The `rgc.go`
walker rejects a `.ts` file (its `isComponent` accepts only `.tsx` and
`.jsx`), while the `main.go` walker has no extension filter at all and
happily registers a component found in a `.py` file. -/
theorem c7Cex :
    rgcWalk (some (.cons (.file "Button.ts" 5 (some "export const Button = (")) .nil)) [] =
      .ok [] ∧
    mainWalk (some (.cons (.file "Button.py" 5 (some "export const Button = (")) .nil)) =
      .ok [("Button", ⟨"Button", "Button.py"⟩)] :=
  ⟨rfl, rfl⟩

/-- C7 (amended): in the `rgc.go` walk every registry entry comes from a file
whose extension is `.tsx` or `.jsx`; `.js` and `.ts` files (and everything
else) never contribute entries.  (The `main.go` walker applies no extension
filter.) -/
theorem c7OnlyTsxJsx (tree : Option FSListing) (reg' : Registry)
    (h : rgcWalk tree [] = .ok reg') :
    ∀ kc ∈ reg', fileExt kc.2.path = ".tsx" ∨ fileExt kc.2.path = ".jsx" := by
  refine rgcWalkPreserves
    (fun r => ∀ kc ∈ r, fileExt kc.2.path = ".tsx" ∨ fileExt kc.2.path = ".jsx")
    ?_ tree [] reg' h (by simp)
  intro reg p hP kc hkc
  unfold rgcProcessFile at hkc
  split at hkc
  · rename_i hcomp
    rcases mem_mapInsert _ _ _ _ hkc with hmem | hEq
    · exact hP kc hmem
    · subst hEq
      simpa [isComponent] using hcomp
  · exact hP kc hkc

/-- Witness for the amended C7 at the two-component scenario. -/
theorem c7OnlyTsxJsxWitness :
    rgcWalk treeAB [] = .ok regAB ∧
    ∀ kc ∈ regAB, fileExt kc.2.path = ".tsx" ∨ fileExt kc.2.path = ".jsx" :=
  ⟨rfl, c7OnlyTsxJsx treeAB regAB rfl⟩

/-!
Claim C6: recoverable versus fatal listing failures during the walk.
-/

/-- C6, counterexample.  The claim says a failed listing of a non-root
directory is only a warning that skips that subtree while siblings continue.
In the `rgc.go` walk a failed subdirectory listing is returned as an error
and aborts the whole phase: nothing is returned, and the sibling file after
the failed directory is never processed. -/
theorem c6Cex :
    rgcWalk (some (.cons (.dir "broken" none) (.cons (.file "ok.tsx" 1 (some "")) .nil))) [] =
      .error () :=
  rfl

/-- C6 (amended): in the `main.go` walk a root-listing failure is fatal while
a non-root listing failure only skips that subtree and the siblings still
run (the walk of the remaining entries proceeds unchanged and the walk as a
whole always succeeds); in the `rgc.go` walk any directory listing failure,
root or not, aborts the phase with an error. -/
theorem c6FailureModes :
    mainWalk none = .error () ∧
    (∀ es : FSListing, mainWalk (some es) = .ok (mainListing es [])) ∧
    (∀ (p : String) (es : FSListing) (reg : Registry),
      mainListing (.cons (.dir p none) es) reg = mainListing es reg) ∧
    (∀ reg : Registry, rgcWalk none reg = .error ()) ∧
    (∀ (p : String) (es : FSListing) (reg : Registry),
      rgcListing (.cons (.dir p none) es) reg = .error ()) :=
  ⟨rfl, fun _ => rfl, fun _ _ _ => rfl, fun _ => rfl, fun _ _ _ => rfl⟩

/-!
Claim C8: the 1,000,000-byte size ceiling.
-/

/-- C8, counterexample.  The claim says every file over the ceiling is
skipped and contributes nothing to the Registry.  The `rgc.go` walker never
looks at file sizes: a 2,000,000-byte `.tsx` file is registered like any
other. -/
theorem c8Cex :
    rgcWalk (some (.cons (.file "Big.tsx" 2000000 (some "export const Big = (")) .nil)) [] =
      .ok [("Big", ⟨"Big", "Big.tsx"⟩)] :=
  rfl

/-- C8 (amended): only the `main.go` walker enforces the ceiling — a file
whose reported size exceeds 1,000,000 bytes is skipped before extraction and
leaves the registry unchanged; the `rgc.go` walker registers the
filename-derived component regardless of size. -/
theorem c8SizeSkip (path : String) (size : Nat) (content : Option String)
    (reg : Registry) (h : 1000000 < size) :
    processFileMain path size content reg = reg := by
  unfold processFileMain
  simp [h]

/-- Witness for the amended C8 at a 2 MB file. -/
theorem c8SizeSkipWitness :
    1000000 < 2000000 ∧
    processFileMain "Big.tsx" 2000000 (some "export const Big = (") [] = [] :=
  ⟨by decide, c8SizeSkip "Big.tsx" 2000000 (some "export const Big = (") [] (by decide)⟩

/-!
Claim C5: where phase-2 edges come from.
-/

@[simp] theorem toList_ofList (l : List ComponentNode) :
    (NodeSeq.ofList l).toList = l := by
  induction l with
  | nil => rfl
  | cons x xs ih => simp [NodeSeq.ofList, NodeSeq.toList, ih]

/-- Every child node produced by `childNodes` is a leaf whose component was
found under some import-scan name in the registry. -/
theorem childNodes_mem (reg : Registry) (s : String) (c : ComponentNode)
    (h : c ∈ childNodes reg s) :
    c.children = NodeSeq.nil ∧
      ∃ nm ∈ findChildComponents s, mapFind reg nm = some c.component := by
  unfold childNodes at h
  rw [List.mem_filterMap] at h
  obtain ⟨nm, hnm, hc⟩ := h
  cases hfind : mapFind reg nm with
  | none => rw [hfind] at hc; cases hc
  | some comp =>
    rw [hfind] at hc
    rw [Option.some.injEq] at hc
    subst hc
    exact ⟨rfl, nm, hnm, by simpa using hfind⟩

/-- Every node `buildComponentTree` collects is either carried over from the
accumulator or was built from a successful fetch of its component's file,
with exactly the children `childNodes` computes. -/
theorem buildNodesShape (reg : Registry) (provider : String → Fetch) :
    ∀ (pending : List (String × Component)) (acc roots : List ComponentNode),
      rgcBuildNodes reg provider pending acc = .ok roots →
      ∀ n ∈ roots,
        n ∈ acc ∨
          ∃ s, provider n.component.path = .ok s ∧
            n.children = NodeSeq.ofList (childNodes reg s) := by
  intro pending
  induction pending with
  | nil =>
    intro acc roots h n hn
    simp only [rgcBuildNodes, Except.ok.injEq] at h
    exact Or.inl (h ▸ hn)
  | cons kc rest ih =>
    intro acc roots h n hn
    simp only [rgcBuildNodes] at h
    cases hf : provider kc.2.path with
    | failed => rw [hf] at h; cases h
    | notFound => rw [hf] at h; exact ih acc roots h n hn
    | ok content =>
      rw [hf] at h
      rcases ih _ roots h n hn with hmem | hq
      · rcases List.mem_append.mp hmem with hmem | hmem
        · exact Or.inl hmem
        · rw [List.mem_singleton] at hmem
          subst hmem
          exact Or.inr ⟨content, by simpa using hf, rfl⟩
      · exact Or.inr hq

/-- The content with which component `A` references itself twice through
relative imports and which contains no `<` character at all. -/
def selfImportContent : String := "import A from \"./A\"\nimport A from \"./A\""

/-- A provider serving `selfImportContent` for every path. -/
def providerSelf : String → Fetch := fun _ => .ok selfImportContent

/-- The per-root lists of child component names of a pipeline result. -/
def childNameLists (r : Except Unit (ComponentsResult × RgcState)) : List (List String) :=
  match r with
  | .error _ => []
  | .ok (_, st) =>
    st.rootComponents.map (fun n => n.children.toList.map (fun c => c.component.name))

/-- C5, counterexample.  The claim says every edge comes from a `<Identifier`
tag occurrence, that no definer references itself, and that edges are
deduplicated per definer.  With the registry `{A}` and a file importing `A`
twice, the engine records the edge `A -> A` twice, although the file
contains no `<` character at all: edges come from import statements, include
self-references, and are not deduplicated. -/
theorem c5Cex :
    rootNames (processRepositoryRgc treeA providerSelf emptyState) = ["A"] ∧
    childNameLists (processRepositoryRgc treeA providerSelf emptyState) = [["A", "A"]] ∧
    selfImportContent.toList.all (fun c => c ≠ '<') = true :=
  ⟨rfl, rfl, rfl⟩

/-- C5 (amended): every edge recorded in phase 2 arises from a match of the
relative-import pattern in the definer's fetched file text whose computed
child name is a Registry key (`main.go`'s variant scans `<Identifier` tags
instead); self-references are recorded like any other match, edges are kept
once per match occurrence (no per-definer deduplication), and every child
node is a leaf. -/
theorem c5EdgesFromImports (reg : Registry) (provider : String → Fetch)
    (pending : List (String × Component)) (roots : List ComponentNode)
    (h : rgcBuildNodes reg provider pending [] = .ok roots) :
    ∀ n ∈ roots,
      ∃ s, provider n.component.path = .ok s ∧
        ∀ c ∈ n.children.toList,
          c.children.toList = [] ∧
            ∃ nm ∈ findChildComponents s, mapFind reg nm = some c.component := by
  intro n hn
  rcases buildNodesShape reg provider pending [] roots h n hn with hacc | ⟨s, hs, hch⟩
  · exact absurd hacc (List.not_mem_nil n)
  · refine ⟨s, hs, ?_⟩
    intro c hc
    rw [hch, toList_ofList] at hc
    rcases childNodes_mem reg s c hc with ⟨hnil, hex⟩
    exact ⟨by rw [hnil]; rfl, hex⟩

/-- The registry of the single component `A`. -/
def regA : Registry := [("A", ⟨"A", "A.tsx"⟩)]

/-- The root list built from `regA` under `providerSelf`: `A` with itself
twice as a leaf child. -/
def rootsSelf : List ComponentNode :=
  [ComponentNode.mk ⟨"A", "A.tsx"⟩
    (.cons (.mk ⟨"A", "A.tsx"⟩ .nil) (.cons (.mk ⟨"A", "A.tsx"⟩ .nil) .nil))]

/-- Witness for the amended C5 at the self-import scenario. -/
theorem c5EdgesFromImportsWitness :
    rgcBuildNodes regA providerSelf regA [] = .ok rootsSelf ∧
    ∀ n ∈ rootsSelf,
      ∃ s, providerSelf n.component.path = .ok s ∧
        ∀ c ∈ n.children.toList,
          c.children.toList = [] ∧
            ∃ nm ∈ findChildComponents s, mapFind regA nm = some c.component :=
  ⟨rfl, c5EdgesFromImports regA providerSelf regA rootsSelf rfl⟩

/-!
Claim C9: cycle handling in serialization.
-/

/-- The JSON of a node without children: its component and the `Children`
field, which marshals the nil slice as `null`. -/
def leafJson (comp : Component) : Json :=
  Json.obj [("Component", Json.obj [("Name", Json.str comp.name), ("Path", Json.str comp.path)]),
            ("Children", Json.null)]

/-- A non-recursive description of the serialized form of a node all of
whose children are leaves; its depth is bounded by construction. -/
def twoLevelJson (n : ComponentNode) : Json :=
  match n.children.toList with
  | [] => leafJson n.component
  | cs =>
    Json.obj [("Component", Json.obj [("Name", Json.str n.component.name),
                                      ("Path", Json.str n.component.path)]),
              ("Children", Json.arr (cs.map (fun c => leafJson c.component))),
              ("children", Json.arr (cs.map (fun c => leafJson c.component)))]

@[simp] theorem node_eta (n : ComponentNode) :
    ComponentNode.mk n.component n.children = n := by
  cases n
  rfl

theorem serializeSeq_eq : ∀ cs : NodeSeq, serializeSeq cs = cs.toList.map serializeNode
  | .nil => rfl
  | .cons n rest => by
    simp [serializeSeq, NodeSeq.toList, serializeSeq_eq rest]

theorem serializeNode_mk (comp : Component) (cs : NodeSeq) :
    serializeNode (.mk comp cs) =
      match serializeSeq cs with
      | [] => leafJson comp
      | kids =>
        Json.obj [("Component", Json.obj [("Name", Json.str comp.name),
                                          ("Path", Json.str comp.path)]),
                  ("Children", Json.arr kids),
                  ("children", Json.arr kids)] := by
  cases cs with
  | nil => rfl
  | cons n rest => rfl

/-- Serialization of a node whose children are all leaves equals the
non-recursive two-level description. -/
theorem serializeNode_twoLevel (n : ComponentNode)
    (hleaf : ∀ c ∈ n.children.toList, c.children = NodeSeq.nil) :
    serializeNode n = twoLevelJson n := by
  obtain ⟨comp, cs⟩ := n
  have hmap : serializeSeq cs = cs.toList.map (fun c => leafJson c.component) := by
    rw [serializeSeq_eq]
    apply List.map_congr_left
    intro c hc
    have h0 : c.children = NodeSeq.nil := hleaf c (by simpa using hc)
    conv_lhs => rw [← node_eta c, h0]
    rfl
  rw [serializeNode_mk, hmap]
  unfold twoLevelJson
  simp only [children_mk, component_mk]
  rcases hcs : cs.toList with _ | ⟨x, xs⟩ <;> simp

/-- Contents for the mutual-reference scenario: `A.tsx` references `B` and
`B.tsx` references `A`. -/
def providerCycle : String → Fetch := fun p =>
  if p = "A.tsx" then .ok "import B from \"./B\""
  else if p = "B.tsx" then .ok "import A from \"./A\""
  else .notFound

/-- The serialized forest of a pipeline result. -/
def forestJsonOf (r : Except Unit (ComponentsResult × RgcState)) : Json :=
  match r with
  | .error _ => Json.null
  | .ok (_, st) => serializeForest st.rootComponents

/-- C9, counterexample.  The claim says a visited-set guard truncates the
serialization at a cycle with a marker.  In the mutual-reference scenario
the serializer emits the complete untruncated structure — `A`'s child list
contains `B`'s full serialized object and vice versa — and no marker of any
kind appears: there is no visited set in `MarshalJSON`. -/
theorem c9Cex :
    forestJsonOf (processRepositoryRgc treeAB providerCycle emptyState) =
      Json.arr
        [Json.obj [("Component", Json.obj [("Name", Json.str "A"), ("Path", Json.str "A.tsx")]),
                   ("Children", Json.arr [leafJson ⟨"B", "B.tsx"⟩]),
                   ("children", Json.arr [leafJson ⟨"B", "B.tsx"⟩])],
         Json.obj [("Component", Json.obj [("Name", Json.str "B"), ("Path", Json.str "B.tsx")]),
                   ("Children", Json.arr [leafJson ⟨"A", "A.tsx"⟩]),
                   ("children", Json.arr [leafJson ⟨"A", "A.tsx"⟩])]] :=
  rfl

/-- C9 (amended): serialization of every forest `buildComponentTree` builds
terminates with a structure of bounded depth, but not through a visited set
or truncation marker: every collected node's children are leaf nodes (and
the `Parent` back-reference is excluded from the JSON), so each root
serializes to the non-recursive two-level form — a mutual reference shows up
as each node serialized in full as the other's leaf child. -/
theorem c9BoundedSerialization (reg : Registry) (provider : String → Fetch)
    (pending : List (String × Component)) (roots : List ComponentNode)
    (h : rgcBuildNodes reg provider pending [] = .ok roots) :
    ∀ n ∈ roots,
      (∀ c ∈ n.children.toList, c.children.toList = []) ∧
        serializeNode n = twoLevelJson n := by
  intro n hn
  rcases buildNodesShape reg provider pending [] roots h n hn with hacc | ⟨s, _, hch⟩
  · exact absurd hacc (List.not_mem_nil n)
  · have hleaf : ∀ c ∈ n.children.toList, c.children = NodeSeq.nil := by
      intro c hc
      rw [hch, toList_ofList] at hc
      exact (childNodes_mem reg s c hc).1
    exact ⟨fun c hc => by rw [hleaf c hc]; rfl, serializeNode_twoLevel n hleaf⟩

/-- The roots built from `regAB` under `providerCycle`: each component with
the other as its single leaf child. -/
def rootsCycle : List ComponentNode :=
  [ComponentNode.mk ⟨"A", "A.tsx"⟩ (.cons (.mk ⟨"B", "B.tsx"⟩ .nil) .nil),
   ComponentNode.mk ⟨"B", "B.tsx"⟩ (.cons (.mk ⟨"A", "A.tsx"⟩ .nil) .nil)]

/-- Witness for the amended C9 at the mutual-reference scenario. -/
theorem c9BoundedSerializationWitness :
    rgcBuildNodes regAB providerCycle regAB [] = .ok rootsCycle ∧
    ∀ n ∈ rootsCycle,
      (∀ c ∈ n.children.toList, c.children.toList = []) ∧
        serializeNode n = twoLevelJson n :=
  ⟨rfl, c9BoundedSerialization regAB providerCycle regAB rootsCycle rfl⟩

end Rgc
